import Mathlib

/-
Verification of the incremental_dedup clustering core.

This file gives a shallow embedding, in Lean 4, of the decision logic of the
repository's clustering engine:

* `cluster_items` / `runClustering` — the batch greedy single-link step and run
  (`clustering.py`, `ClusteringOperations.cluster_items` / `analyze_clustering`);
* `clean_clusters` — singleton removal (`ClusteringOperations.clean_clusters`);
* `add_to_cluster` — incremental add against a persisted cluster store
  (`clustering.py`, `IncrementalClustering.add_to_cluster`);
* `cluster_process` and `interpretOracleResponse` — borderline resolution
  (`clustering.py`, `CosineClusterer`);
* `merge_dicts` / `merge_duplicates` — field merging
  (`clusters_handling.py`, `CosineClusters`);
* `compare_clusters` — the cross-run diff (`diff_operations.py`).

Modelling conventions:

* Record and cluster-member ids are `String`; similarity scores are `ℚ`
  (the code only compares scores with thresholds, so an ordered field
  faithfully captures the float comparisons used).
* A Python dict whose insertion order matters is modelled as an association
  list (`List (String × _)`); lookup (`alookup`) returns the first binding,
  and the embedding only ever inserts a key that is absent, matching the
  uniqueness of dict keys.
* External collaborators (the similarity backend, the LLM oracle, the
  threshold configuration, Elasticsearch reads) are parameters of the
  embedded functions, so each embedded function is the pure decision logic
  of the corresponding Python function on top of those capabilities.
* `evaluate_similarity` (vector_operations.py) is documented as returning a
  mapping `{item_id: {other_id: score}}`, and every call site in
  clustering.py consumes that documented shape (`similarity.get(item_id, {})`,
  and reverse lookups `cache[id].get(id, {}).get(item_id)`).  The embedding
  passes the per-item score mapping (`Scores`) that those accesses produce.
-/

/-- Ordered score mapping of one similarity result: candidate id → score,
in the (descending) order the backend returned it. -/
abbrev Scores := List (String × ℚ)

/-- First-binding association-list lookup, the model of Python dict access. -/
def alookup {α : Type} : List (String × α) → String → Option α
  | [], _ => none
  | p :: ps, k => if p.1 = k then some p.2 else alookup ps k

/-- State of one batch clustering run: the per-run similarity cache
(`self.similarity_cache`) and the cluster list. -/
structure BatchState where
  cache : List (String × Scores)
  clusters : List (List String)
deriving DecidableEq, Repr

/-- Pairwise score used by the batch scan: direct lookup in the current
item's scores, falling back to a reverse lookup through the cache entry of
the scanned member (clustering.py lines 63–67). -/
def effScore (cache : List (String × Scores)) (itemScores : Scores)
    (item_id j : String) : Option ℚ :=
  match alookup itemScores j with
  | some s => some s
  | none =>
    match alookup cache j with
    | some js => alookup js item_id
    | none => none

/-- Whether a scanned member `j` triggers a match at `threshold`
(clustering.py line 69: `score is not None and score >= threshold`). -/
def memberMatches (cache : List (String × Scores)) (itemScores : Scores)
    (item_id : String) (threshold : ℚ) (j : String) : Bool :=
  match effScore cache itemScores item_id j with
  | some s => decide (s ≥ threshold)
  | none => false

/-- The nested scan of clustering.py lines 61–75: the item is appended to the
first cluster containing a member whose score reaches the threshold; `none`
when no cluster matches. -/
def tryMatch (cache : List (String × Scores)) (itemScores : Scores)
    (item_id : String) (threshold : ℚ) : List (List String) → Option (List (List String))
  | [] => none
  | c :: cs =>
    if c.any (memberMatches cache itemScores item_id threshold) then
      some ((c ++ [item_id]) :: cs)
    else
      (tryMatch cache itemScores item_id threshold cs).map (c :: ·)

/-- Clustering decision for one item once its scores are available
(clustering.py lines 57–81): join the first matching cluster, else start a
new singleton cluster. -/
def clusterStep (cache : List (String × Scores)) (itemScores : Scores)
    (item_id : String) (threshold : ℚ) (clusters : List (List String)) : BatchState :=
  { cache := cache
    clusters :=
      match tryMatch cache itemScores item_id threshold clusters with
      | some cs => cs
      | none => clusters ++ [[item_id]] }

/-- `ClusteringOperations.cluster_items`: fetch (and cache) the item's
similarity result unless cached; if the result is unavailable return the
state unchanged; otherwise run the greedy scan. -/
def cluster_items (sim : String → Option Scores) (item_id : String)
    (threshold : ℚ) (st : BatchState) : BatchState :=
  match alookup st.cache item_id with
  | some itemScores => clusterStep st.cache itemScores item_id threshold st.clusters
  | none =>
    match sim item_id with
    | none => st
    | some sc =>
      let cache' := st.cache ++ [(item_id, sc)]
      clusterStep cache' sc item_id threshold st.clusters

/-- One threshold pass of `analyze_clustering`: fold `cluster_items` over the
id list starting from a fresh cache and an empty cluster list. -/
def runClustering (sim : String → Option Scores) (threshold : ℚ)
    (ids : List String) : BatchState :=
  ids.foldl (fun st i => cluster_items sim i threshold st) ⟨[], []⟩

/-- `ClusteringOperations.clean_clusters`: keep only the entries whose member
list has more than one element.  (The `isinstance(members, list)` guard of the
source is identically true here because the model types members as lists.) -/
def clean_clusters {α : Type} (cluster_output : List (String × List α)) :
    List (String × List α) :=
  cluster_output.filter (fun kv => 1 < kv.2.length)

/-- A successful scan only appends the item to the end of exactly one
existing cluster. -/
theorem tryMatch_shape {cache : List (String × Scores)} {itemScores : Scores}
    {item_id : String} {t : ℚ} :
    ∀ {cs cs' : List (List String)},
      tryMatch cache itemScores item_id t cs = some cs' →
      ∃ i, ∃ h : i < cs.length, cs' = cs.set i (cs.get ⟨i, h⟩ ++ [item_id]) := by
  intro cs
  induction cs with
  | nil => intro cs' h; simp [tryMatch] at h
  | cons c rest ih =>
    intro cs' h
    by_cases hc : c.any (memberMatches cache itemScores item_id t) = true
    · refine ⟨0, by simp, ?_⟩
      simp [tryMatch, hc] at h
      simp [← h]
    · simp [tryMatch, hc] at h
      obtain ⟨cs'', hrec, heq⟩ := h
      obtain ⟨i, hi, hset⟩ := ih hrec
      refine ⟨i + 1, by simpa using hi, ?_⟩
      simp [← heq, hset]

/-- C9: one step of batch clustering never removes, reorders, or moves any
existing member: the output cluster list is the input unchanged (exactly when
the item is uncached and its similarity cannot be computed), or the input
with the item appended to the end of exactly one existing cluster, or the
input with a new singleton cluster appended at the end. -/
theorem cluster_items_preserves_members (sim : String → Option Scores)
    (item_id : String) (t : ℚ) (st : BatchState) :
    (alookup st.cache item_id = none ∧ sim item_id = none ∧
      cluster_items sim item_id t st = st)
    ∨ (∃ i, ∃ h : i < st.clusters.length,
        (cluster_items sim item_id t st).clusters =
          st.clusters.set i (st.clusters.get ⟨i, h⟩ ++ [item_id]))
    ∨ (cluster_items sim item_id t st).clusters = st.clusters ++ [[item_id]] := by
  unfold cluster_items
  cases hcache : alookup st.cache item_id with
  | some sc =>
    cases hm : tryMatch st.cache sc item_id t st.clusters with
    | none => right; right; simp [clusterStep, hm]
    | some cs' =>
      right; left
      obtain ⟨i, hi, hset⟩ := tryMatch_shape hm
      exact ⟨i, hi, by simp [clusterStep, hm, hset]⟩
  | none =>
    cases hsim : sim item_id with
    | none => left; exact ⟨rfl, rfl, rfl⟩
    | some sc =>
      cases hm : tryMatch (st.cache ++ [(item_id, sc)]) sc item_id t st.clusters with
      | none => right; right; simp [clusterStep, hm]
      | some cs' =>
        right; left
        obtain ⟨i, hi, hset⟩ := tryMatch_shape hm
        exact ⟨i, hi, by simp [clusterStep, hm, hset]⟩

/-- C8: the cleaned view contains exactly the entries of the input whose
member list has length strictly greater than 1, each kept unchanged. -/
theorem clean_clusters_spec {α : Type} (cluster_output : List (String × List α))
    (k : String) (v : List α) :
    (k, v) ∈ clean_clusters cluster_output ↔
      (k, v) ∈ cluster_output ∧ 1 < v.length := by
  simp [clean_clusters, List.mem_filter]

/-- Membership of an id in some cluster of a cluster list. -/
def inClusters (j : String) (cs : List (List String)) : Prop := ∃ c ∈ cs, j ∈ c

theorem inClusters_cons {j : String} {c : List String} {cs : List (List String)} :
    inClusters j (c :: cs) ↔ j ∈ c ∨ inClusters j cs := by
  simp [inClusters, List.exists_mem_cons_iff]

theorem inClusters_append {j : String} {cs1 cs2 : List (List String)} :
    inClusters j (cs1 ++ cs2) ↔ inClusters j cs1 ∨ inClusters j cs2 := by
  simp [inClusters, List.mem_append, or_and_right, exists_or]

theorem inClusters_set_append :
    ∀ (cs : List (List String)) (i : ℕ) (h : i < cs.length) (x j : String),
      inClusters j (cs.set i (cs.get ⟨i, h⟩ ++ [x])) ↔ inClusters j cs ∨ j = x := by
  intro cs
  induction cs with
  | nil => intro i h; simp at h
  | cons c rest ih =>
    intro i h x j
    cases i with
    | zero =>
      simp only [List.set_cons_zero, List.get_cons_zero]
      rw [inClusters_cons, inClusters_cons]
      simp only [List.mem_append, List.mem_singleton]
      tauto
    | succ n =>
      have hn : n < rest.length := by simpa using h
      simp only [List.set_cons_succ, List.get_cons_succ]
      rw [inClusters_cons, inClusters_cons, ih n hn x j]
      tauto

theorem tryMatch_eq_none_iff {cache : List (String × Scores)} {sc : Scores}
    {item_id : String} {t : ℚ} :
    ∀ {cs : List (List String)},
      tryMatch cache sc item_id t cs = none ↔
        ∀ j, inClusters j cs → memberMatches cache sc item_id t j = false := by
  intro cs
  induction cs with
  | nil => simp [tryMatch, inClusters]
  | cons c rest ih =>
    by_cases hc : c.any (memberMatches cache sc item_id t) = true
    · simp only [tryMatch, hc, if_pos rfl]
      constructor
      · intro h; cases h
      · intro h
        obtain ⟨j, hj, hb⟩ := List.any_eq_true.mp hc
        rw [h j (inClusters_cons.mpr (Or.inl hj))] at hb
        cases hb
    · have hcf : c.any (memberMatches cache sc item_id t) = false :=
        Bool.eq_false_iff.mpr hc
      have hstep : tryMatch cache sc item_id t (c :: rest) =
          (tryMatch cache sc item_id t rest).map (c :: ·) := by
        simp [tryMatch, hcf]
      rw [hstep, Option.map_eq_none', ih]
      constructor
      · intro h j hj
        rcases inClusters_cons.mp hj with hj | hj
        · exact Bool.eq_false_iff.mpr (List.any_eq_false.mp hcf j hj)
        · exact h j hj
      · intro h j hj
        exact h j (inClusters_cons.mpr (Or.inr hj))

theorem tryMatch_isSome_iff {cache : List (String × Scores)} {sc : Scores}
    {item_id : String} {t : ℚ} {cs : List (List String)} :
    (tryMatch cache sc item_id t cs).isSome = true ↔
      ∃ j, inClusters j cs ∧ memberMatches cache sc item_id t j = true := by
  rw [Option.isSome_iff_ne_none, Ne, tryMatch_eq_none_iff]
  constructor
  · intro h
    by_contra hno
    push_neg at hno
    apply h
    intro j hj
    cases hb : memberMatches cache sc item_id t j with
    | false => rfl
    | true => exact absurd hb (hno j hj)
  · rintro ⟨j, hj, hb⟩ hall
    rw [hall j hj] at hb
    cases hb

theorem tryMatch_length {cache : List (String × Scores)} {sc : Scores}
    {item_id : String} {t : ℚ} {cs cs' : List (List String)}
    (h : tryMatch cache sc item_id t cs = some cs') : cs'.length = cs.length := by
  obtain ⟨i, hi, hset⟩ := tryMatch_shape h
  rw [hset, List.length_set]

theorem inClusters_clusterStep (cache : List (String × Scores)) (sc : Scores)
    (item_id : String) (t : ℚ) (cs : List (List String)) (j : String) :
    inClusters j (clusterStep cache sc item_id t cs).clusters ↔
      inClusters j cs ∨ j = item_id := by
  unfold clusterStep
  cases h : tryMatch cache sc item_id t cs with
  | none =>
    simp only [inClusters_append]
    rw [inClusters_cons]
    simp [inClusters]
  | some cs' =>
    obtain ⟨i, hi, hset⟩ := tryMatch_shape h
    simp only [hset]
    exact inClusters_set_append cs i hi item_id j

theorem clusterStep_length (cache : List (String × Scores)) (sc : Scores)
    (item_id : String) (t : ℚ) (cs : List (List String)) :
    (clusterStep cache sc item_id t cs).clusters.length =
      if (tryMatch cache sc item_id t cs).isSome then cs.length else cs.length + 1 := by
  unfold clusterStep
  cases h : tryMatch cache sc item_id t cs with
  | none => simp
  | some cs' => simp [tryMatch_length h]

theorem memberMatches_mono {cache : List (String × Scores)} {sc : Scores}
    {item_id : String} {t1 t2 : ℚ} (h12 : t1 ≤ t2) {j : String}
    (h : memberMatches cache sc item_id t2 j = true) :
    memberMatches cache sc item_id t1 j = true := by
  unfold memberMatches at h ⊢
  cases heff : effScore cache sc item_id j with
  | none => rw [heff] at h; exact Bool.noConfusion h
  | some s =>
    rw [heff] at h
    have hs : s ≥ t2 := of_decide_eq_true h
    exact decide_eq_true (le_trans h12 hs)

theorem clusterStep_pair_length {cache : List (String × Scores)} {sc : Scores}
    {item_id : String} {t1 t2 : ℚ} (h12 : t1 ≤ t2)
    {cs1 cs2 : List (List String)}
    (hm : ∀ j, inClusters j cs1 ↔ inClusters j cs2)
    (hl : cs1.length ≤ cs2.length) :
    (clusterStep cache sc item_id t1 cs1).clusters.length ≤
      (clusterStep cache sc item_id t2 cs2).clusters.length := by
  rw [clusterStep_length, clusterStep_length]
  by_cases h2 : (tryMatch cache sc item_id t2 cs2).isSome = true
  · have h1 : (tryMatch cache sc item_id t1 cs1).isSome = true := by
      rw [tryMatch_isSome_iff] at h2 ⊢
      obtain ⟨j, hj, hb⟩ := h2
      exact ⟨j, (hm j).mpr hj, memberMatches_mono h12 hb⟩
    simp [h1, h2, hl]
  · by_cases h1 : (tryMatch cache sc item_id t1 cs1).isSome = true
    · simp only [h1, if_pos rfl]
      simp only [Bool.not_eq_true] at h2
      simp only [h2]
      simp
      omega
    · simp only [Bool.not_eq_true] at h1 h2
      simp only [h1, h2]
      simp
      omega

theorem cluster_items_pair (sim : String → Option Scores) (item_id : String)
    {t1 t2 : ℚ} (h12 : t1 ≤ t2) (st1 st2 : BatchState)
    (hc : st1.cache = st2.cache)
    (hm : ∀ j, inClusters j st1.clusters ↔ inClusters j st2.clusters)
    (hl : st1.clusters.length ≤ st2.clusters.length) :
    (cluster_items sim item_id t1 st1).cache = (cluster_items sim item_id t2 st2).cache ∧
    (∀ j, inClusters j (cluster_items sim item_id t1 st1).clusters ↔
      inClusters j (cluster_items sim item_id t2 st2).clusters) ∧
    (cluster_items sim item_id t1 st1).clusters.length ≤
      (cluster_items sim item_id t2 st2).clusters.length := by
  unfold cluster_items
  rw [hc]
  cases hca : alookup st2.cache item_id with
  | some sc =>
    refine ⟨rfl, ?_, clusterStep_pair_length h12 hm hl⟩
    intro j
    rw [inClusters_clusterStep, inClusters_clusterStep]
    exact or_congr (hm j) Iff.rfl
  | none =>
    cases hs : sim item_id with
    | none => exact ⟨hc, hm, hl⟩
    | some sc =>
      refine ⟨rfl, ?_, clusterStep_pair_length h12 hm hl⟩
      intro j
      rw [inClusters_clusterStep, inClusters_clusterStep]
      exact or_congr (hm j) Iff.rfl

theorem runPair_length (sim : String → Option Scores) {t1 t2 : ℚ} (h12 : t1 ≤ t2) :
    ∀ (ids : List String) (st1 st2 : BatchState),
      st1.cache = st2.cache →
      (∀ j, inClusters j st1.clusters ↔ inClusters j st2.clusters) →
      st1.clusters.length ≤ st2.clusters.length →
      (ids.foldl (fun st i => cluster_items sim i t1 st) st1).clusters.length ≤
        (ids.foldl (fun st i => cluster_items sim i t2 st) st2).clusters.length := by
  intro ids
  induction ids with
  | nil => intro st1 st2 _ _ hl; simpa using hl
  | cons i rest ih =>
    intro st1 st2 hc hm hl
    simp only [List.foldl_cons]
    obtain ⟨hc', hm', hl'⟩ := cluster_items_pair sim i h12 st1 st2 hc hm hl
    exact ih _ _ hc' hm' hl'

/-- Similarity function for the threshold-monotonicity counterexample:
b scores 20 against a; c scores 75 against a and 90 against b (scores are
rationals; the embedding only compares them with thresholds, so an integer
scale is as general as a decimal one). -/
def simC4 : String → Option Scores := fun id =>
  if id = "a" then some []
  else if id = "b" then some [("a", 20)]
  else if id = "c" then some [("a", 75), ("b", 90)]
  else none

/-- C4 is false as stated: with thresholds 70 < 80 and ids a, b, c, the run
at threshold 70 yields clusters [a, c], [b] while the run at threshold 80
yields [a], [b, c]; the cluster [b, c] formed at the higher threshold is not
a subset of any cluster formed at the lower threshold. -/
theorem cluster_subset_claim_false :
    (70 : ℚ) < 80 ∧
    ¬ (∀ C ∈ (runClustering simC4 80 ["a", "b", "c"]).clusters,
        ∃ D ∈ (runClustering simC4 70 ["a", "b", "c"]).clusters, C ⊆ D) := by
  constructor
  · norm_num
  · decide

/-- C4 (amended): for a fixed id list, embedding key and similarity function,
if threshold t1 < t2 then the run at t2 produces at least as many clusters as
the run at t1 (same or more, never fewer); the subset (coarsening) form of
the claim fails because the greedy scan can divert an item into an earlier
cluster at the lower threshold. -/
theorem runClustering_count_mono (sim : String → Option Scores) (ids : List String)
    {t1 t2 : ℚ} (h : t1 < t2) :
    (runClustering sim t1 ids).clusters.length ≤
      (runClustering sim t2 ids).clusters.length :=
  runPair_length sim h.le ids ⟨[], []⟩ ⟨[], []⟩ rfl (fun _ => Iff.rfl) le_rfl

/-- Witness for the amended C4 at a concrete input. -/
theorem runClustering_count_mono_witness :
    (70 : ℚ) < 80 ∧
    (runClustering simC4 70 ["a", "b", "c"]).clusters.length ≤
      (runClustering simC4 80 ["a", "b", "c"]).clusters.length :=
  ⟨by norm_num, runClustering_count_mono simC4 ["a", "b", "c"] (by norm_num)⟩

/-- Stable insertion of one scored pair into a descending-sorted list; an
element already in place whose score ties the inserted one stays before it,
so the sort below is stable. -/
def insertDesc (p : String × ℚ) : Scores → Scores
  | [] => [p]
  | q :: qs => if q.2 ≥ p.2 then q :: insertDesc p qs else p :: q :: qs

/-- Stable descending sort by score, the model of
`sorted(similarities.items(), key=lambda x: x[1], reverse=True)`: a stable
sort's output is unique, so any stable implementation agrees with Python's. -/
def sortDesc (l : Scores) : Scores :=
  l.foldl (fun acc p => insertDesc p acc) []

/-- The final comprehension of `VectorOperations.evaluate_similarity`
(vector_operations.py lines 102–113): drop the hit whose id is the queried
item's own id and sort the rest by score, descending.  `hits` carries each
candidate id with its cosine-derived score (the backend script's `+ 1.0`
offset and the comprehension's `- 1.0` cancel). -/
def evalSimilarities (item_id : String) (hits : List (String × ℚ)) : Scores :=
  sortDesc (hits.filter (fun h => decide (h.1 ≠ item_id)))

/-- Persisted cluster document: the Elasticsearch `_id` (int-parsed by the
scan at line 204, so modelled as ℕ), the model key, the threshold, and the
ordered member list `cluster_ids`. -/
structure ClusterDoc where
  cid : ℕ
  key : String
  threshold : ℚ
  cluster_ids : List String
deriving DecidableEq, Repr

/-- Candidate set of `add_to_cluster` (clustering.py line 193): ids whose
score reaches the max threshold.  Python builds a set; the model keeps a
deduplicated list, since the set's iteration order is unspecified. -/
def candidateSet (similarity_scores : Scores) (max_threshold : ℚ) : List String :=
  ((similarity_scores.filter (fun p => decide (p.2 ≥ max_threshold))).map
    (fun p => p.1)).dedup

/-- Nonemptiness of `similar_ids & cluster_ids` (clustering.py line 211). -/
def docIntersects (similar_ids : List String) (d : ClusterDoc) : Bool :=
  similar_ids.any (fun s => decide (s ∈ d.cluster_ids))

/-- Result of the scan over persisted clusters. -/
inductive ScanResult where
  | alreadyIn : ScanResult
  | target : Option ℕ → ScanResult
deriving DecidableEq, Repr

/-- The scan of `add_to_cluster` (clustering.py lines 199–213): return
`alreadyIn` as soon as a cluster already contains the item (the code
`return`s there); otherwise `existing_cluster_id` ends up holding the id of
the LAST intersecting cluster, because the assignment at line 213 is not
followed by a `break` and later iterations overwrite it. -/
def scanClusters (item_id : String) (similar_ids : List String) :
    List ClusterDoc → ScanResult
  | [] => .target none
  | d :: ds =>
    if item_id ∈ d.cluster_ids then .alreadyIn
    else
      match scanClusters item_id similar_ids ds with
      | .alreadyIn => .alreadyIn
      | .target (some c) => .target (some c)
      | .target none =>
        .target (if docIntersects similar_ids d then some d.cid else none)

/-- Fallback max threshold (0.9) used when no threshold is configured for
the key (clustering.py line 184). -/
def defaultMaxThreshold : ℚ := 9 / 10

/-- Outcome of one incremental add, mirroring the source's exit points. -/
inductive AddOutcome where
  | cannotCluster : AddOutcome
  | alreadyClustered : AddOutcome
  | addedTo : ℕ → AddOutcome
  | created : ClusterDoc → AddOutcome
  | notEnough : AddOutcome
  | noSimilar : AddOutcome
deriving DecidableEq, Repr

/-- `IncrementalClustering.add_to_cluster` (clustering.py lines 169–242):
outcome together with the updated store.  `thrMax` models
`self.thresholds.get(key, {}).get("max")`; `similarity` is the record's
score mapping (`none` when the record has no embedding); `store` is the
fetched cluster list in scan order.  The painless update script appends the
id to the target's `cluster_ids` only if absent; `if existing_cluster_id:`
is an `isSome` test here because cluster `_id`s are non-empty (numeric)
strings, which are truthy. -/
def add_to_cluster (thrMax : Option ℚ) (key : String) (item_id : String)
    (similarity : Option Scores) (store : List ClusterDoc) :
    AddOutcome × List ClusterDoc :=
  let max_threshold := thrMax.getD defaultMaxThreshold
  match similarity with
  | none => (.cannotCluster, store)
  | some similarity_scores =>
    let similar_ids := candidateSet similarity_scores max_threshold
    match scanClusters item_id similar_ids store with
    | .alreadyIn => (.alreadyClustered, store)
    | .target (some cid) =>
      (.addedTo cid,
        store.map (fun d =>
          if d.cid = cid then
            { d with cluster_ids :=
                if item_id ∈ d.cluster_ids then d.cluster_ids
                else d.cluster_ids ++ [item_id] }
          else d))
    | .target none =>
      if similar_ids = [] then (.noSimilar, store)
      else
        let new_id := if store = [] then 1
          else (store.map (fun d => d.cid)).foldr max 0 + 1
        let all_ids := (item_id :: similar_ids).dedup
        if 1 < all_ids.length then
          let doc : ClusterDoc :=
            { cid := new_id, key := (key.splitOn ".").getD 1 "",
              threshold := max_threshold, cluster_ids := all_ids }
          (.created doc, store ++ [doc])
        else (.notEnough, store)

theorem scanClusters_alreadyIn {item_id : String} {sids : List String} :
    ∀ {store : List ClusterDoc}, (∃ d ∈ store, item_id ∈ d.cluster_ids) →
      scanClusters item_id sids store = .alreadyIn := by
  intro store
  induction store with
  | nil => rintro ⟨d, hd, _⟩; cases hd
  | cons d ds ih =>
    rintro ⟨e, he, hmem⟩
    rcases List.mem_cons.mp he with rfl | he
    · simp [scanClusters, hmem]
    · by_cases hd : item_id ∈ d.cluster_ids
      · simp [scanClusters, hd]
      · simp [scanClusters, hd, ih ⟨e, he, hmem⟩]

/-- When the item is in no cluster, the scan yields either `target none`
with no cluster intersecting, or the LAST intersecting cluster. -/
theorem scanClusters_char {item_id : String} {sids : List String} :
    ∀ {store : List ClusterDoc}, (∀ d ∈ store, item_id ∉ d.cluster_ids) →
      ((∀ d ∈ store, docIntersects sids d = false) ∧
        scanClusters item_id sids store = .target none)
      ∨ (∃ i, ∃ hi : i < store.length,
          docIntersects sids (store.get ⟨i, hi⟩) = true ∧
          (∀ j, ∀ hj : j < store.length, i < j →
            docIntersects sids (store.get ⟨j, hj⟩) = false) ∧
          scanClusters item_id sids store = .target (some (store.get ⟨i, hi⟩).cid)) := by
  intro store
  induction store with
  | nil => intro _; left; exact ⟨by simp, rfl⟩
  | cons d ds ih =>
    intro hnm
    have hd : item_id ∉ d.cluster_ids := hnm d (List.mem_cons_self d ds)
    have hds : ∀ e ∈ ds, item_id ∉ e.cluster_ids :=
      fun e he => hnm e (List.mem_cons_of_mem d he)
    rcases ih hds with ⟨hno, hnone⟩ | ⟨i, hi, hint, hafter, hsome⟩
    · by_cases hint : docIntersects sids d = true
      · right
        refine ⟨0, by simp, ?_, ?_, ?_⟩
        · simpa using hint
        · intro j hj hjpos
          cases j with
          | zero => cases hjpos
          | succ n =>
            have hn : n < ds.length := by simpa using hj
            simpa using hno (ds.get ⟨n, hn⟩) (ds.get_mem n hn)
        · simp [scanClusters, hd, hnone, hint]
      · left
        have hintf : docIntersects sids d = false := Bool.eq_false_iff.mpr hint
        constructor
        · intro e he
          rcases List.mem_cons.mp he with rfl | he
          · exact hintf
          · exact hno e he
        · simp [scanClusters, hd, hnone, hintf]
    · right
      refine ⟨i + 1, by simpa using hi, by simpa using hint, ?_, ?_⟩
      · intro j hj hjgt
        cases j with
        | zero => cases hjgt
        | succ n =>
          have hn : n < ds.length := by simpa using hj
          have : i < n := by omega
          simpa using hafter n hn this
      · simp [scanClusters, hd, hsome]

/-- Updating the unique store entry with the target's cid is a `set` at the
target's index. -/
theorem map_update_eq_set (f : ClusterDoc → ClusterDoc) :
    ∀ (store : List ClusterDoc) (i : ℕ) (hi : i < store.length),
      (store.map (fun d => d.cid)).Nodup →
      store.map (fun d => if d.cid = (store.get ⟨i, hi⟩).cid then f d else d) =
        store.set i (f (store.get ⟨i, hi⟩)) := by
  intro store
  induction store with
  | nil => intro i hi; simp at hi
  | cons d ds ih =>
    intro i hi hnd
    rw [List.map_cons, List.nodup_cons] at hnd
    obtain ⟨hdnot, hdsnd⟩ := hnd
    cases i with
    | zero =>
      have hget : (d :: ds).get ⟨0, hi⟩ = d := rfl
      rw [hget]
      simp only [List.set_cons_zero, List.map_cons, if_pos rfl]
      congr 1
      have hid : ∀ e ∈ ds, (if e.cid = d.cid then f e else e) = e := by
        intro e he
        refine if_neg (fun heq => hdnot ?_)
        rw [← heq]
        exact List.mem_map_of_mem (fun x => x.cid) he
      rw [List.map_congr_left hid]
      simp
    | succ n =>
      have hn : n < ds.length := by simpa using hi
      have hget : (d :: ds).get ⟨n + 1, hi⟩ = ds.get ⟨n, hn⟩ := rfl
      rw [hget]
      simp only [List.set_cons_succ, List.map_cons]
      congr 1
      · refine if_neg (fun heq => hdnot ?_)
        rw [heq]
        exact List.mem_map_of_mem (fun x => x.cid) (ds.get_mem n hn)
      · exact ih n hn hdsnd

/-- C5: when the similarity result is available and the record id is already
a member of some persisted cluster, incremental add reports already
clustered and leaves the store unchanged, so repeating the add in the same
state is a no-op. -/
theorem add_to_cluster_already_noop (thrMax : Option ℚ) (key item_id : String)
    (sc : Scores) (store : List ClusterDoc)
    (h : ∃ d ∈ store, item_id ∈ d.cluster_ids) :
    add_to_cluster thrMax key item_id (some sc) store = (.alreadyClustered, store) := by
  simp [add_to_cluster, scanClusters_alreadyIn h]

/-- Witness for C5 at a concrete store. -/
theorem add_to_cluster_already_noop_witness :
    (∃ d ∈ [ClusterDoc.mk 1 "bge" 90 ["x", "y"]], "x" ∈ d.cluster_ids) ∧
    add_to_cluster (some 90) "question.bge" "x" (some [("y", 95)])
        [ClusterDoc.mk 1 "bge" 90 ["x", "y"]] =
      (.alreadyClustered, [ClusterDoc.mk 1 "bge" 90 ["x", "y"]]) :=
  ⟨by decide,
    add_to_cluster_already_noop (some 90) "question.bge" "x" [("y", 95)]
      [ClusterDoc.mk 1 "bge" 90 ["x", "y"]] (by decide)⟩

/-- C1 is false as stated: item x has candidate set {b, d}; cluster 1 = [b]
and cluster 2 = [d] both intersect it, x is in neither, yet the add appends
x to cluster 2 — the LAST intersecting cluster in scan order — and leaves
cluster 1, the FIRST intersecting cluster, unmodified. -/
theorem add_first_cluster_claim_false :
    (∀ d ∈ [ClusterDoc.mk 1 "bge" 90 ["b"], ClusterDoc.mk 2 "bge" 90 ["d"]],
        "x" ∉ d.cluster_ids) ∧
    docIntersects (candidateSet [("b", 95), ("d", 95)] 90)
      (ClusterDoc.mk 1 "bge" 90 ["b"]) = true ∧
    add_to_cluster (some 90) "question.bge" "x" (some [("b", 95), ("d", 95)])
        [ClusterDoc.mk 1 "bge" 90 ["b"], ClusterDoc.mk 2 "bge" 90 ["d"]] =
      (.addedTo 2,
        [ClusterDoc.mk 1 "bge" 90 ["b"], ClusterDoc.mk 2 "bge" 90 ["d", "x"]]) :=
  ⟨by decide, by decide, by decide⟩

/-- C1 (amended): for an incremental add of a record id that is in no
persisted cluster, if some cluster's member set meets the candidate set,
the record id is appended to the LAST such cluster in scan order (the scan
overwrites its target without breaking), and no other cluster is modified. -/
theorem add_to_cluster_appends_last (thrMax : Option ℚ) (key item_id : String)
    (sc : Scores) (store : List ClusterDoc)
    (hnm : ∀ d ∈ store, item_id ∉ d.cluster_ids)
    (hnodup : (store.map (fun d => d.cid)).Nodup)
    (hint : ∃ d ∈ store,
      docIntersects (candidateSet sc (thrMax.getD defaultMaxThreshold)) d = true) :
    ∃ i, ∃ hi : i < store.length,
      docIntersects (candidateSet sc (thrMax.getD defaultMaxThreshold))
        (store.get ⟨i, hi⟩) = true ∧
      (∀ j, ∀ hj : j < store.length, i < j →
        docIntersects (candidateSet sc (thrMax.getD defaultMaxThreshold))
          (store.get ⟨j, hj⟩) = false) ∧
      add_to_cluster thrMax key item_id (some sc) store =
        (.addedTo (store.get ⟨i, hi⟩).cid,
          store.set i { store.get ⟨i, hi⟩ with
            cluster_ids := (store.get ⟨i, hi⟩).cluster_ids ++ [item_id] }) := by
  rcases @scanClusters_char item_id (candidateSet sc (thrMax.getD defaultMaxThreshold))
      store hnm
    with ⟨hno, _⟩ | ⟨i, hi, hi_int, hafter, hsome⟩
  · obtain ⟨d, hd, hdint⟩ := hint
    rw [hno d hd] at hdint
    cases hdint
  · refine ⟨i, hi, hi_int, hafter, ?_⟩
    have hupd := map_update_eq_set
      (fun d => { d with cluster_ids :=
        if item_id ∈ d.cluster_ids then d.cluster_ids
        else d.cluster_ids ++ [item_id] }) store i hi hnodup
    have hmem : item_id ∉ (store.get ⟨i, hi⟩).cluster_ids :=
      hnm _ (store.get_mem i hi)
    simp only [add_to_cluster, hsome]
    rw [hupd]
    simp only [List.get_eq_getElem] at hmem
    simp [hmem]

/-- Witness for the amended C1 at a concrete store. -/
theorem add_to_cluster_appends_last_witness :
    ∃ i, ∃ hi : i < ([ClusterDoc.mk 1 "bge" 90 ["b"]] : List ClusterDoc).length,
      docIntersects (candidateSet [("b", 95)] ((some (90 : ℚ)).getD defaultMaxThreshold))
        (([ClusterDoc.mk 1 "bge" 90 ["b"]] : List ClusterDoc).get ⟨i, hi⟩) = true ∧
      (∀ j, ∀ hj : j < ([ClusterDoc.mk 1 "bge" 90 ["b"]] : List ClusterDoc).length, i < j →
        docIntersects (candidateSet [("b", 95)] ((some (90 : ℚ)).getD defaultMaxThreshold))
          (([ClusterDoc.mk 1 "bge" 90 ["b"]] : List ClusterDoc).get ⟨j, hj⟩) = false) ∧
      add_to_cluster (some 90) "question.bge" "x" (some [("b", 95)])
          [ClusterDoc.mk 1 "bge" 90 ["b"]] =
        (.addedTo (([ClusterDoc.mk 1 "bge" 90 ["b"]] : List ClusterDoc).get ⟨i, hi⟩).cid,
          ([ClusterDoc.mk 1 "bge" 90 ["b"]] : List ClusterDoc).set i
            { ([ClusterDoc.mk 1 "bge" 90 ["b"]] : List ClusterDoc).get ⟨i, hi⟩ with
              cluster_ids :=
                (([ClusterDoc.mk 1 "bge" 90 ["b"]] : List ClusterDoc).get
                  ⟨i, hi⟩).cluster_ids ++ ["x"] }) :=
  add_to_cluster_appends_last (some 90) "question.bge" "x" [("b", 95)]
    [ClusterDoc.mk 1 "bge" 90 ["b"]] (by decide) (by decide) (by decide)

theorem insertDesc_perm (p : String × ℚ) :
    ∀ l : Scores, (insertDesc p l).Perm (p :: l) := by
  intro l
  induction l with
  | nil => exact List.Perm.refl _
  | cons q qs ih =>
    unfold insertDesc
    by_cases h : q.2 ≥ p.2
    · rw [if_pos h]
      exact (ih.cons q).trans (List.Perm.swap p q qs)
    · rw [if_neg h]

theorem sortDesc_aux_perm :
    ∀ (l acc : Scores), (l.foldl (fun acc p => insertDesc p acc) acc).Perm (l ++ acc) := by
  intro l
  induction l with
  | nil => intro acc; simp
  | cons p l ih =>
    intro acc
    simp only [List.foldl_cons, List.cons_append]
    exact (ih _).trans
      ((List.Perm.append_left l (insertDesc_perm p acc)).trans List.perm_middle)

/-- evaluate_similarity never reports the queried record's own id: the dict
comprehension filters out the hit whose elastic_id equals item_id. -/
theorem evalSimilarities_ne_self (item_id : String) (hits : List (String × ℚ)) :
    ∀ p ∈ evalSimilarities item_id hits, p.1 ≠ item_id := by
  intro p hp
  have hperm := sortDesc_aux_perm (hits.filter (fun h => decide (h.1 ≠ item_id))) []
  have hpf : p ∈ hits.filter (fun h => decide (h.1 ≠ item_id)) := by
    have := hperm.mem_iff.mp hp
    simpa using this
  exact of_decide_eq_true (List.mem_filter.mp hpf).2

theorem item_not_in_candidates (item_id : String) (hits : List (String × ℚ)) (t : ℚ) :
    item_id ∉ candidateSet (evalSimilarities item_id hits) t := by
  intro hmem
  unfold candidateSet at hmem
  rw [List.mem_dedup] at hmem
  obtain ⟨p, hp, hfst⟩ := List.mem_map.mp hmem
  exact evalSimilarities_ne_self item_id hits p (List.mem_filter.mp hp).1 hfst

/-- C10: when the similarity result comes from evaluate_similarity (so never
contains the queried id itself), the candidate set is non-empty, the id is
in no cluster and no cluster intersects the candidate set, the "not enough
similar items" branch is unreachable: a new cluster holding the record id
plus all candidates (hence at least two members) is always created. -/
theorem add_to_cluster_creates (thrMax : Option ℚ) (key item_id : String)
    (hits : List (String × ℚ)) (store : List ClusterDoc)
    (hne : candidateSet (evalSimilarities item_id hits)
      (thrMax.getD defaultMaxThreshold) ≠ [])
    (hnm : ∀ d ∈ store, item_id ∉ d.cluster_ids)
    (hno : ∀ d ∈ store,
      docIntersects (candidateSet (evalSimilarities item_id hits)
        (thrMax.getD defaultMaxThreshold)) d = false) :
    ∃ doc : ClusterDoc,
      add_to_cluster thrMax key item_id (some (evalSimilarities item_id hits)) store =
        (.created doc, store ++ [doc]) ∧
      doc.cluster_ids =
        item_id :: candidateSet (evalSimilarities item_id hits)
          (thrMax.getD defaultMaxThreshold) ∧
      2 ≤ doc.cluster_ids.length := by
  have hscan : scanClusters item_id
      (candidateSet (evalSimilarities item_id hits) (thrMax.getD defaultMaxThreshold))
      store = .target none := by
    rcases scanClusters_char hnm with ⟨_, h⟩ | ⟨i, hi, hint, _, _⟩
    · exact h
    · rw [hno _ (store.get_mem i hi)] at hint
      cases hint
  have hitem : item_id ∉ candidateSet (evalSimilarities item_id hits)
      (thrMax.getD defaultMaxThreshold) := item_not_in_candidates item_id hits _
  have hdedup : (item_id :: candidateSet (evalSimilarities item_id hits)
      (thrMax.getD defaultMaxThreshold)).dedup =
      item_id :: candidateSet (evalSimilarities item_id hits)
        (thrMax.getD defaultMaxThreshold) :=
    List.dedup_eq_self.mpr (List.nodup_cons.mpr ⟨hitem, List.nodup_dedup _⟩)
  have hpos : 0 < (candidateSet (evalSimilarities item_id hits)
      (thrMax.getD defaultMaxThreshold)).length := List.length_pos.mpr hne
  have hlen : 1 < (item_id :: candidateSet (evalSimilarities item_id hits)
      (thrMax.getD defaultMaxThreshold)).dedup.length := by
    rw [hdedup]
    simp only [List.length_cons]
    omega
  refine ⟨{ cid := if store = [] then 1 else (store.map (fun d => d.cid)).foldr max 0 + 1,
            key := (key.splitOn ".").getD 1 "",
            threshold := thrMax.getD defaultMaxThreshold,
            cluster_ids := item_id :: candidateSet (evalSimilarities item_id hits)
              (thrMax.getD defaultMaxThreshold) }, ?_, rfl, ?_⟩
  · simp only [add_to_cluster, hscan]
    rw [if_neg hne, if_pos hlen, hdedup]
  · simp only [List.length_cons]
    omega

/-- Witness for C10 at a concrete input. -/
theorem add_to_cluster_creates_witness :
    ∃ doc : ClusterDoc,
      add_to_cluster (some 90) "question.bge" "x"
          (some (evalSimilarities "x" [("b", 95)])) [] =
        (.created doc, [] ++ [doc]) ∧
      doc.cluster_ids =
        "x" :: candidateSet (evalSimilarities "x" [("b", 95)])
          ((some (90 : ℚ)).getD defaultMaxThreshold) ∧
      2 ≤ doc.cluster_ids.length :=
  add_to_cluster_creates (some 90) "question.bge" "x" [("b", 95)] []
    (by decide) (by decide) (by decide)

/-- Similarity-result document (`SimilarIDs`, vector_operations.py lines
5–8): subject id, embedding key, candidate → score mapping in order. -/
structure SimilarIDs where
  id : String
  embedding_key : String
  similar_id : List (String × ℚ)
deriving DecidableEq, Repr

/-- Confirmed-duplicates document (`CosineClusterDoc`, clusters_handling.py
lines 17–21). -/
structure CosineClusterDoc where
  id : String
  embedding_key : String
  min_threshold : ℚ
  similar_ids : List String
deriving DecidableEq, Repr

/-- Fallback safe threshold of cluster_process (0.9, clustering.py line 327). -/
def defaultSafeThreshold : ℚ := 9 / 10

/-- Fallback min threshold of cluster_process (0.8, clustering.py line 328). -/
def defaultMinThreshold : ℚ := 4 / 5

/-- Threshold resolution of cluster_process (clustering.py lines 321–328):
the configured (safe, min) pair for the key, falling back to (0.9, 0.8).
The `try/except` also lands in the fallback when the configured entry does
not answer `.get`, so `thr` abstracts whichever read succeeds. -/
def resolveThresholds (thr : String → Option (ℚ × ℚ)) (key : String) : ℚ × ℚ :=
  (thr key).getD (defaultSafeThreshold, defaultMinThreshold)

/-- One acceptance step of cluster_process (clustering.py lines 332–343):
score ≥ safe accepts outright and records the score as the running minimum;
min ≤ score < safe asks the oracle and accepts only on a `true` verdict;
anything else leaves the accumulator unchanged. -/
def processStep (oracle : String → Option Bool) (safe_threshold min_threshold : ℚ)
    (acc : ℚ × List String) (p : String × ℚ) : ℚ × List String :=
  if p.2 ≥ safe_threshold then (p.2, acc.2 ++ [p.1])
  else if min_threshold ≤ p.2 then
    match oracle p.1 with
    | some true => (p.2, acc.2 ++ [p.1])
    | _ => acc
  else acc

/-- `CosineClusterer.cluster_process` (clustering.py lines 317–366): fold the
candidates in order from running minimum 0 and no accepted ids, and return
the similarity-confirmation document.  `oracle` is the verdict of
`_LLM_similarity_check` against the (fixed) subject record. -/
def cluster_process (oracle : String → Option Bool) (thr : String → Option (ℚ × ℚ))
    (doc : SimilarIDs) : CosineClusterDoc :=
  let st := resolveThresholds thr doc.embedding_key
  let r := doc.similar_id.foldl (processStep oracle st.1 st.2) (0, [])
  { id := doc.id, embedding_key := doc.embedding_key,
    min_threshold := r.1, similar_ids := r.2 }

/-- Whether one candidate entry is accepted by cluster_process. -/
def acceptsP (oracle : String → Option Bool) (safe_threshold min_threshold : ℚ)
    (p : String × ℚ) : Bool :=
  if p.2 ≥ safe_threshold then true
  else if min_threshold ≤ p.2 then
    match oracle p.1 with
    | some true => true
    | _ => false
  else false

theorem processStep_eq (oracle : String → Option Bool) (safe min_t : ℚ)
    (acc : ℚ × List String) (p : String × ℚ) :
    processStep oracle safe min_t acc p =
      if acceptsP oracle safe min_t p = true then (p.2, acc.2 ++ [p.1]) else acc := by
  unfold processStep acceptsP
  by_cases h1 : p.2 ≥ safe
  · simp [h1]
  · by_cases h2 : min_t ≤ p.2
    · simp only [if_neg h1, if_pos h2]
      cases horacle : oracle p.1 with
      | none => simp
      | some b => cases b <;> simp
    · simp [h1, h2]

theorem foldl_processStep_char (oracle : String → Option Bool) (safe min_t : ℚ) :
    ∀ (l : List (String × ℚ)) (m0 : ℚ) (ids0 : List String),
      l.foldl (processStep oracle safe min_t) (m0, ids0) =
        (((l.filter (acceptsP oracle safe min_t)).map (fun p => p.2)).getLastD m0,
          ids0 ++ (l.filter (acceptsP oracle safe min_t)).map (fun p => p.1)) := by
  intro l
  induction l with
  | nil => intro m0 ids0; simp
  | cons p l ih =>
    intro m0 ids0
    rw [List.foldl_cons, processStep_eq]
    by_cases ha : acceptsP oracle safe min_t p = true
    · rw [if_pos ha, ih]
      have hfc : (p :: l).filter (acceptsP oracle safe min_t) =
          p :: l.filter (acceptsP oracle safe min_t) := by
        simp [List.filter_cons, ha]
      rw [hfc]
      simp only [List.map_cons, List.getLastD_cons, List.append_assoc,
        List.singleton_append]
    · have haf : acceptsP oracle safe min_t p = false := Bool.eq_false_iff.mpr ha
      have hfc : (p :: l).filter (acceptsP oracle safe min_t) =
          l.filter (acceptsP oracle safe min_t) := by
        simp [List.filter_cons, haf]
      rw [if_neg (by simp [haf]), ih, hfc]

theorem getLastD_mem : ∀ (l : List ℚ) (d : ℚ), l ≠ [] → l.getLastD d ∈ l := by
  intro l
  induction l with
  | nil => intro d h; exact absurd rfl h
  | cons a l ih =>
    intro d _
    rw [List.getLastD_cons]
    by_cases hl : l = []
    · subst hl; simp [List.getLastD]
    · exact List.mem_cons_of_mem a (ih a hl)

theorem getLastD_le_of_sorted : ∀ (l : List ℚ), l.Pairwise (· ≥ ·) →
    ∀ d x, x ∈ l → l ≠ [] → l.getLastD d ≤ x := by
  intro l
  induction l with
  | nil => intro _ d x hx; cases hx
  | cons a l ih =>
    intro hp d x hx _
    rw [List.getLastD_cons]
    obtain ⟨ha, hl⟩ := List.pairwise_cons.mp hp
    by_cases hle : l = []
    · subst hle
      rw [List.mem_singleton.mp hx]
      simp [List.getLastD]
    · rcases List.mem_cons.mp hx with rfl | hx
      · exact ha _ (getLastD_mem l x hle)
      · exact ih hl a x hx hle

/-- cluster_process in closed form: the document records the score of the
last accepted candidate (0 when none is accepted) and the accepted ids in
order. -/
theorem cluster_process_eq (oracle : String → Option Bool)
    (thr : String → Option (ℚ × ℚ)) (doc : SimilarIDs) :
    cluster_process oracle thr doc =
      { id := doc.id, embedding_key := doc.embedding_key,
        min_threshold := ((doc.similar_id.filter (acceptsP oracle
            (resolveThresholds thr doc.embedding_key).1
            (resolveThresholds thr doc.embedding_key).2)).map (fun p => p.2)).getLastD 0,
        similar_ids := (doc.similar_id.filter (acceptsP oracle
            (resolveThresholds thr doc.embedding_key).1
            (resolveThresholds thr doc.embedding_key).2)).map (fun p => p.1) } := by
  simp only [cluster_process]
  rw [foldl_processStep_char]
  simp

/-- C3: when the candidate scores are sorted descending, the `min_threshold`
field of the produced similarity-confirmation document is the minimum score
among all accepted candidates (automatic accepts at score ≥ safe and oracle
accepts in the ambiguous band), provided at least one candidate is accepted. -/
theorem cluster_process_min_threshold (oracle : String → Option Bool)
    (thr : String → Option (ℚ × ℚ)) (doc : SimilarIDs)
    (hsorted : doc.similar_id.Pairwise (fun a b => a.2 ≥ b.2))
    (hne : doc.similar_id.filter (acceptsP oracle
      (resolveThresholds thr doc.embedding_key).1
      (resolveThresholds thr doc.embedding_key).2) ≠ []) :
    (cluster_process oracle thr doc).min_threshold ∈
      (doc.similar_id.filter (acceptsP oracle
        (resolveThresholds thr doc.embedding_key).1
        (resolveThresholds thr doc.embedding_key).2)).map (fun p => p.2) ∧
    ∀ s ∈ (doc.similar_id.filter (acceptsP oracle
        (resolveThresholds thr doc.embedding_key).1
        (resolveThresholds thr doc.embedding_key).2)).map (fun p => p.2),
      (cluster_process oracle thr doc).min_threshold ≤ s := by
  rw [cluster_process_eq]
  have hmapne : (doc.similar_id.filter (acceptsP oracle
      (resolveThresholds thr doc.embedding_key).1
      (resolveThresholds thr doc.embedding_key).2)).map (fun p => p.2) ≠ [] := by
    simpa using hne
  have hsortmap : ((doc.similar_id.filter (acceptsP oracle
      (resolveThresholds thr doc.embedding_key).1
      (resolveThresholds thr doc.embedding_key).2)).map (fun p => p.2)).Pairwise
      (· ≥ ·) := by
    have hfil : (doc.similar_id.filter (acceptsP oracle
        (resolveThresholds thr doc.embedding_key).1
        (resolveThresholds thr doc.embedding_key).2)).Pairwise
        (fun (a b : String × ℚ) => a.2 ≥ b.2) :=
      List.Pairwise.sublist (List.filter_sublist doc.similar_id) hsorted
    exact List.Pairwise.map (fun p : String × ℚ => p.2) (fun a b h => h) hfil
  exact ⟨getLastD_mem _ 0 hmapne,
    fun s hs => getLastD_le_of_sorted _ hsortmap 0 s hs hmapne⟩

/-- Witness for C3: the spec's boundary scenario, scores scaled by 100 —
safe 90, min 80, similarity(A,B) = 95 (automatic), similarity(A,C) = 82
with the oracle answering true; the recorded minimum is 82. -/
theorem cluster_process_min_threshold_witness :
    ((SimilarIDs.mk "A" "e5" [("B", 95), ("C", 82)]).similar_id.Pairwise
        (fun a b => a.2 ≥ b.2) ∧
      (SimilarIDs.mk "A" "e5" [("B", 95), ("C", 82)]).similar_id.filter
        (acceptsP (fun _ => some true)
          (resolveThresholds (fun _ => some (90, 80)) "e5").1
          (resolveThresholds (fun _ => some (90, 80)) "e5").2) ≠ []) ∧
    ((cluster_process (fun _ => some true) (fun _ => some (90, 80))
        (SimilarIDs.mk "A" "e5" [("B", 95), ("C", 82)])).min_threshold ∈
      ((SimilarIDs.mk "A" "e5" [("B", 95), ("C", 82)]).similar_id.filter
        (acceptsP (fun _ => some true)
          (resolveThresholds (fun _ => some (90, 80)) "e5").1
          (resolveThresholds (fun _ => some (90, 80)) "e5").2)).map (fun p => p.2) ∧
      ∀ s ∈ ((SimilarIDs.mk "A" "e5" [("B", 95), ("C", 82)]).similar_id.filter
          (acceptsP (fun _ => some true)
            (resolveThresholds (fun _ => some (90, 80)) "e5").1
            (resolveThresholds (fun _ => some (90, 80)) "e5").2)).map (fun p => p.2),
        (cluster_process (fun _ => some true) (fun _ => some (90, 80))
          (SimilarIDs.mk "A" "e5" [("B", 95), ("C", 82)])).min_threshold ≤ s) ∧
    (cluster_process (fun _ => some true) (fun _ => some (90, 80))
      (SimilarIDs.mk "A" "e5" [("B", 95), ("C", 82)])).min_threshold = 82 :=
  ⟨⟨by decide, by decide⟩,
    cluster_process_min_threshold (fun _ => some true) (fun _ => some (90, 80))
      (SimilarIDs.mk "A" "e5" [("B", 95), ("C", 82)]) (by decide) (by decide),
    by decide⟩

/-- `str.strip()`: drop leading and trailing whitespace.  Oracle responses
are modelled as their character sequences, since the byte-indexed `String`
primitives do not unfold in proofs; on the character sequence these are the
Python semantics of the operations used at clustering.py lines 310–312. -/
def pyStrip (s : List Char) : List Char :=
  ((s.dropWhile Char.isWhitespace).reverse.dropWhile Char.isWhitespace).reverse

/-- `str.lower()`: lowercase each character. -/
def pyLower (s : List Char) : List Char := s.map Char.toLower

/-- The response interpretation of `_LLM_similarity_check` (clustering.py
lines 306–315): an empty (falsy) response yields no verdict; otherwise the
stripped, lowercased response is tested for equality with or a prefix match
of "true", then of "false"; a response matching neither falls off the end of
the function, which is Python's `None`.  Python re-computes
`response.strip().lower()` in each test, as here. -/
def interpretOracleResponse (response : List Char) : Option Bool :=
  if response = [] then none
  else if pyLower (pyStrip response) = ['t', 'r', 'u', 'e'] ∨
      ['t', 'r', 'u', 'e'].isPrefixOf (pyLower (pyStrip response)) = true then some true
  else if pyLower (pyStrip response) = ['f', 'a', 'l', 's', 'e'] ∨
      ['f', 'a', 'l', 's', 'e'].isPrefixOf (pyLower (pyStrip response)) = true then some false
  else none

theorem false_prefix_not_true {r : List Char}
    (h : ['f', 'a', 'l', 's', 'e'].isPrefixOf r = true) :
    ¬ (r = ['t', 'r', 'u', 'e'] ∨ ['t', 'r', 'u', 'e'].isPrefixOf r = true) := by
  cases r with
  | nil => simp [List.isPrefixOf] at h
  | cons a as =>
    simp only [List.isPrefixOf, Bool.and_eq_true, beq_iff_eq] at h
    rintro (heq | hpre)
    · injection heq with ha _
      rw [← h.1] at ha
      exact absurd ha (by decide)
    · simp only [List.isPrefixOf, Bool.and_eq_true, beq_iff_eq] at hpre
      rw [← h.1] at hpre
      exact absurd hpre.1 (by decide)

/-- No candidate whose scores all fall below the safe threshold and whose
oracle verdict is not `true` ends up among the accepted ids. -/
theorem cluster_process_not_mem (oracle : String → Option Bool)
    (thr : String → Option (ℚ × ℚ)) (doc : SimilarIDs) (c : String)
    (hor : oracle c ≠ some true)
    (hsc : ∀ s : ℚ, (c, s) ∈ doc.similar_id →
      s < (resolveThresholds thr doc.embedding_key).1) :
    c ∉ (cluster_process oracle thr doc).similar_ids := by
  rw [cluster_process_eq]
  intro hmem
  simp only [List.mem_map] at hmem
  obtain ⟨p, hp, hfst⟩ := hmem
  rw [List.mem_filter] at hp
  obtain ⟨hpl, hpa⟩ := hp
  obtain ⟨a, s⟩ := p
  simp only at hfst
  subst hfst
  have hlt := hsc s hpl
  unfold acceptsP at hpa
  rw [if_neg (not_le.mpr hlt)] at hpa
  by_cases hmin : (resolveThresholds thr doc.embedding_key).2 ≤ s
  · rw [if_pos hmin] at hpa
    cases horacle : oracle a with
    | none => rw [horacle] at hpa; cases hpa
    | some b =>
      cases b with
      | false => rw [horacle] at hpa; cases hpa
      | true => exact hor horacle
  · rw [if_neg hmin] at hpa
    cases hpa

/-- C7: a response is interpreted as true exactly when, after stripping and
lowercasing, it is "true" or an extension of it (exact match is subsumed by
the prefix match); as false exactly when it so matches "false"; any other
response, the empty one included, yields no verdict, and a candidate in the
ambiguous band whose verdict is not true is excluded from the
confirmed-duplicates list. -/
theorem oracle_response_interpretation :
    (∀ response : List Char,
      interpretOracleResponse response = some true ↔
        response ≠ [] ∧
          ['t', 'r', 'u', 'e'].isPrefixOf (pyLower (pyStrip response)) = true) ∧
    (∀ response : List Char,
      interpretOracleResponse response = some false ↔
        response ≠ [] ∧
          ['f', 'a', 'l', 's', 'e'].isPrefixOf (pyLower (pyStrip response)) = true) ∧
    (∀ (rawResponse : String → List Char) (thr : String → Option (ℚ × ℚ))
        (doc : SimilarIDs) (c : String),
      interpretOracleResponse (rawResponse c) ≠ some true →
      (∀ s : ℚ, (c, s) ∈ doc.similar_id →
        s < (resolveThresholds thr doc.embedding_key).1) →
      c ∉ (cluster_process (fun x => interpretOracleResponse (rawResponse x))
        thr doc).similar_ids) := by
  have hself : ∀ r : List Char, r = ['t', 'r', 'u', 'e'] →
      ['t', 'r', 'u', 'e'].isPrefixOf (r) = true := by
    intro r hr; rw [hr]; decide
  refine ⟨?_, ?_, ?_⟩
  · intro response
    constructor
    · intro h
      by_cases hr : response = []
      · rw [interpretOracleResponse, if_pos hr] at h; cases h
      · refine ⟨hr, ?_⟩
        rw [interpretOracleResponse, if_neg hr] at h
        by_cases h1 : pyLower (pyStrip response) = ['t', 'r', 'u', 'e'] ∨
            ['t', 'r', 'u', 'e'].isPrefixOf (pyLower (pyStrip response)) = true
        · rcases h1 with h1 | h1
          · exact hself _ h1
          · exact h1
        · rw [if_neg h1] at h
          by_cases h2 : pyLower (pyStrip response) = ['f', 'a', 'l', 's', 'e'] ∨
              ['f', 'a', 'l', 's', 'e'].isPrefixOf (pyLower (pyStrip response)) = true
          · rw [if_pos h2] at h; cases h
          · rw [if_neg h2] at h; cases h
    · rintro ⟨hr, hpre⟩
      rw [interpretOracleResponse, if_neg hr, if_pos (Or.inr hpre)]
  · intro response
    constructor
    · intro h
      by_cases hr : response = []
      · rw [interpretOracleResponse, if_pos hr] at h; cases h
      · refine ⟨hr, ?_⟩
        rw [interpretOracleResponse, if_neg hr] at h
        by_cases h1 : pyLower (pyStrip response) = ['t', 'r', 'u', 'e'] ∨
            ['t', 'r', 'u', 'e'].isPrefixOf (pyLower (pyStrip response)) = true
        · rw [if_pos h1] at h; cases h
        · rw [if_neg h1] at h
          by_cases h2 : pyLower (pyStrip response) = ['f', 'a', 'l', 's', 'e'] ∨
              ['f', 'a', 'l', 's', 'e'].isPrefixOf (pyLower (pyStrip response)) = true
          · rcases h2 with h2 | h2
            · rw [h2]; decide
            · exact h2
          · rw [if_neg h2] at h; cases h
    · rintro ⟨hr, hpre⟩
      rw [interpretOracleResponse, if_neg hr,
        if_neg (false_prefix_not_true hpre), if_pos (Or.inr hpre)]
  · intro rawResponse thr doc c hor hsc
    exact cluster_process_not_mem _ thr doc c hor hsc

/-- Witness for C7: the response "meh" yields no verdict and the candidate c,
scoring 85 in the ambiguous band [80, 90), is excluded; a "TRUE!" response
parses as true. -/
theorem oracle_response_interpretation_witness :
    interpretOracleResponse ['m', 'e', 'h'] = none ∧
    interpretOracleResponse [' ', 'T', 'R', 'U', 'E', '!'] = some true ∧
    "c" ∉ (cluster_process
      (fun x => interpretOracleResponse
        (if x = "c" then ['m', 'e', 'h'] else []))
      (fun _ => some (90, 80)) (SimilarIDs.mk "A" "e5" [("c", 85)])).similar_ids :=
  ⟨by decide, by decide,
    oracle_response_interpretation.2.2
      (fun x => if x = "c" then ['m', 'e', 'h'] else [])
      (fun _ => some (90, 80)) (SimilarIDs.mk "A" "e5" [("c", 85)]) "c"
      (by decide)
      (by
        intro s hs
        simp only [List.mem_singleton, Prod.mk.injEq] at hs
        rw [hs.2]
        norm_num [resolveThresholds])⟩

/-- A Python value held in a record field: a scalar (text or number) or a
list of values. -/
inductive PyVal where
  | str : String → PyVal
  | num : ℚ → PyVal
  | list : List PyVal → PyVal
deriving Repr

/-- A record fetched from the store: a Python dict, field name → value. -/
abbrev PyDict := List (String × PyVal)

/-- Normalisation used by the concat policy of `_merge_dicts`
(clusters_handling.py lines 84–94): a list keeps its elements
(`value.copy()` / `extend`), a scalar is wrapped (`[value]` / `append`). -/
def toListVal : PyVal → List PyVal
  | .list l => l
  | v => [v]

/-- `CosineClusters._merge_dicts` (clusters_handling.py lines 59–102).
Fields in both records are fused by the oracle merger (`mergeQ`, standing
for `GemmaQuestionMerger.merging_question`) when the key is configured in
`merging_keys`, and concatenated without deduplication otherwise; fields
unique to either side pass through, d1's fields first, then d2's leftovers. -/
def merge_dicts (merging_keys : List String) (mergeQ : List PyVal → PyVal)
    (d1 d2 : PyDict) : PyDict :=
  (d1.map (fun kv =>
    match alookup d2 kv.1 with
    | some v2 =>
      if kv.1 ∈ merging_keys then (kv.1, mergeQ [kv.2, v2])
      else (kv.1, .list (toListVal kv.2 ++ toListVal v2))
    | none => kv)) ++
  d2.filter (fun kv => (alookup d1 kv.1).isNone)

/-- `CosineClusters._retrieve_similar_ids` (clusters_handling.py lines
39–44): fetch each confirmed-similar record (possibly absent).  The
parameter is annotated `Dict` and iterated through `.keys()`, whose
elements are the ids; `merge_duplicates` passes the `similar_ids` list, so
the iteration is modelled over the ids. -/
def retrieveSimilarIds (get_item : String → Option PyDict)
    (similar_ids : List String) : List (Option PyDict) :=
  similar_ids.map get_item

/-- `CosineClusters.merge_duplicates` (clusters_handling.py lines 104–114):
fetch the similar records and the base record; when the base record is
present (a non-empty dict — `if based_doc:` is a truthiness test), fold the
similar records into it — but the `return` sits inside the loop body, so
only the first fetched record is ever merged.  An empty `similar_ids` list
(loop never entered) and a missing or empty base record fall through to
Python's implicit `None`; a present but unresolvable first similar record
would raise in Python and is modelled as no result. -/
def merge_duplicates (get_item : String → Option PyDict)
    (merging_keys : List String) (mergeQ : List PyVal → PyVal)
    (cluster_dict : CosineClusterDoc) : Option PyDict :=
  let docs := retrieveSimilarIds get_item cluster_dict.similar_ids
  match get_item cluster_dict.id with
  | some based_doc =>
    if based_doc.isEmpty then none
    else
      match docs with
      | [] => none
      | od :: _ =>
        match od with
        | some d => some (merge_dicts merging_keys mergeQ based_doc d)
        | none => none
  | none => none

/-- C6: with the base record present and non-empty and a non-empty
confirmed-similar list whose first record resolves, merge_duplicates merges
exactly ONE similar record — the first — into the base record and returns;
the remaining confirmed duplicates (`rest`) are never consulted. -/
theorem merge_duplicates_first_only (get_item : String → Option PyDict)
    (merging_keys : List String) (mergeQ : List PyVal → PyVal)
    (cluster_dict : CosineClusterDoc) (id1 : String) (rest : List String)
    (base d1 : PyDict)
    (hsim : cluster_dict.similar_ids = id1 :: rest)
    (hbase : get_item cluster_dict.id = some base)
    (hbne : base ≠ [])
    (hd1 : get_item id1 = some d1) :
    merge_duplicates get_item merging_keys mergeQ cluster_dict =
      some (merge_dicts merging_keys mergeQ base d1) := by
  unfold merge_duplicates retrieveSimilarIds
  rw [hsim, hbase]
  simp [hd1, hbne]

/-- Witness for C6: base record A merged with the first similar record B
(semantic-merge key "q", concat elsewhere); the second similar record C is
ignored. -/
theorem merge_duplicates_first_only_witness :
    merge_duplicates
      (fun x =>
        if x = "A" then some [("q", .str "hello"), ("x", .num 1)]
        else if x = "B" then some [("q", .str "hi"), ("y", .num 2)]
        else if x = "C" then some [("q", .str "zzz")]
        else none)
      ["q"] (fun l => .list l)
      (CosineClusterDoc.mk "A" "e5" 82 ["B", "C"]) =
    some (merge_dicts ["q"] (fun l => .list l)
      [("q", .str "hello"), ("x", .num 1)] [("q", .str "hi"), ("y", .num 2)]) :=
  merge_duplicates_first_only
    (fun x =>
      if x = "A" then some [("q", .str "hello"), ("x", .num 1)]
      else if x = "B" then some [("q", .str "hi"), ("y", .num 2)]
      else if x = "C" then some [("q", .str "zzz")]
      else none)
    ["q"] (fun l => .list l)
    (CosineClusterDoc.mk "A" "e5" 82 ["B", "C"]) "B" ["C"]
    [("q", .str "hello"), ("x", .num 1)] [("q", .str "hi"), ("y", .num 2)]
    rfl rfl (by simp) rfl

/-- A parsed JSON value, the content of one cluster entry in a snapshot
file (in the repository's outputs: a list of {"id", "question"} objects). -/
inductive Json where
  | null : Json
  | bool : Bool → Json
  | num : ℚ → Json
  | str : String → Json
  | arr : List Json → Json
  | obj : List (String × Json) → Json
deriving Repr

/-- Lexicographic comparison of key character sequences, the order used by
`sort_keys=True` (Python compares strings by code point). -/
def charListLe : List Char → List Char → Bool
  | [], _ => true
  | _ :: _, [] => false
  | a :: as, b :: bs => if a < b then true else if a = b then charListLe as bs else false

/-- Key order for `sort_keys=True`. -/
def keyLe (s t : String) : Bool := charListLe s.data t.data

/-- Insertion into a key-sorted field list (keys of one JSON object are
distinct, so stability is irrelevant). -/
def insertField (p : String × Json) : List (String × Json) → List (String × Json)
  | [] => [p]
  | q :: qs => if keyLe q.1 p.1 then q :: insertField p qs else p :: q :: qs

/-- Sort an object's fields by key, as `json.dumps(..., sort_keys=True)`
renders them. -/
def sortFields (fs : List (String × Json)) : List (String × Json) :=
  fs.foldl (fun acc p => insertField p acc) []

mutual

def canon : Json → Json
  | .null => .null
  | .bool b => .bool b
  | .num q => .num q
  | .str s => .str s
  | .arr xs => .arr (canonList xs)
  | .obj fs => .obj (sortFields (canonFields fs))

def canonList : List Json → List Json
  | [] => []
  | x :: xs => canon x :: canonList xs

def canonFields : List (String × Json) → List (String × Json)
  | [] => []
  | kv :: fs => (kv.1, canon kv.2) :: canonFields fs

end

mutual

def jdecEq : (a b : Json) → Decidable (a = b)
  | .null, .null => isTrue rfl
  | .bool a, .bool b =>
    match instDecidableEqBool a b with
    | isTrue h => isTrue (h ▸ rfl)
    | isFalse h => isFalse (by intro hh; injection hh; exact h (by assumption))
  | .num a, .num b =>
    match instDecidableEqRat a b with
    | isTrue h => isTrue (h ▸ rfl)
    | isFalse h => isFalse (by intro hh; injection hh; exact h (by assumption))
  | .str a, .str b =>
    match instDecidableEqString a b with
    | isTrue h => isTrue (h ▸ rfl)
    | isFalse h => isFalse (by intro hh; injection hh; exact h (by assumption))
  | .arr a, .arr b =>
    match jdecEqList a b with
    | isTrue h => isTrue (h ▸ rfl)
    | isFalse h => isFalse (by intro hh; injection hh; exact h (by assumption))
  | .obj a, .obj b =>
    match jdecEqFields a b with
    | isTrue h => isTrue (h ▸ rfl)
    | isFalse h => isFalse (by intro hh; injection hh; exact h (by assumption))
  | .null, .bool _ => isFalse (by intro h; exact Json.noConfusion h)
  | .null, .num _ => isFalse (by intro h; exact Json.noConfusion h)
  | .null, .str _ => isFalse (by intro h; exact Json.noConfusion h)
  | .null, .arr _ => isFalse (by intro h; exact Json.noConfusion h)
  | .null, .obj _ => isFalse (by intro h; exact Json.noConfusion h)
  | .bool _, .null => isFalse (by intro h; exact Json.noConfusion h)
  | .bool _, .num _ => isFalse (by intro h; exact Json.noConfusion h)
  | .bool _, .str _ => isFalse (by intro h; exact Json.noConfusion h)
  | .bool _, .arr _ => isFalse (by intro h; exact Json.noConfusion h)
  | .bool _, .obj _ => isFalse (by intro h; exact Json.noConfusion h)
  | .num _, .null => isFalse (by intro h; exact Json.noConfusion h)
  | .num _, .bool _ => isFalse (by intro h; exact Json.noConfusion h)
  | .num _, .str _ => isFalse (by intro h; exact Json.noConfusion h)
  | .num _, .arr _ => isFalse (by intro h; exact Json.noConfusion h)
  | .num _, .obj _ => isFalse (by intro h; exact Json.noConfusion h)
  | .str _, .null => isFalse (by intro h; exact Json.noConfusion h)
  | .str _, .bool _ => isFalse (by intro h; exact Json.noConfusion h)
  | .str _, .num _ => isFalse (by intro h; exact Json.noConfusion h)
  | .str _, .arr _ => isFalse (by intro h; exact Json.noConfusion h)
  | .str _, .obj _ => isFalse (by intro h; exact Json.noConfusion h)
  | .arr _, .null => isFalse (by intro h; exact Json.noConfusion h)
  | .arr _, .bool _ => isFalse (by intro h; exact Json.noConfusion h)
  | .arr _, .num _ => isFalse (by intro h; exact Json.noConfusion h)
  | .arr _, .str _ => isFalse (by intro h; exact Json.noConfusion h)
  | .arr _, .obj _ => isFalse (by intro h; exact Json.noConfusion h)
  | .obj _, .null => isFalse (by intro h; exact Json.noConfusion h)
  | .obj _, .bool _ => isFalse (by intro h; exact Json.noConfusion h)
  | .obj _, .num _ => isFalse (by intro h; exact Json.noConfusion h)
  | .obj _, .str _ => isFalse (by intro h; exact Json.noConfusion h)
  | .obj _, .arr _ => isFalse (by intro h; exact Json.noConfusion h)

def jdecEqList : (a b : List Json) → Decidable (a = b)
  | [], [] => isTrue rfl
  | [], _ :: _ => isFalse (by intro h; exact List.noConfusion h)
  | _ :: _, [] => isFalse (by intro h; exact List.noConfusion h)
  | a :: as, b :: bs =>
    match jdecEq a b, jdecEqList as bs with
    | isTrue h1, isTrue h2 => isTrue (by rw [h1, h2])
    | isFalse h1, _ => isFalse (by intro h; injection h; exact h1 (by assumption))
    | _, isFalse h2 => isFalse (by intro h; injection h; exact h2 (by assumption))

def jdecEqFields : (a b : List (String × Json)) → Decidable (a = b)
  | [], [] => isTrue rfl
  | [], _ :: _ => isFalse (by intro h; exact List.noConfusion h)
  | _ :: _, [] => isFalse (by intro h; exact List.noConfusion h)
  | p :: ps, q :: qs =>
    match instDecidableEqString p.1 q.1, jdecEq p.2 q.2, jdecEqFields ps qs with
    | isTrue h0, isTrue h1, isTrue h2 =>
      isTrue (by rw [show p = q from Prod.ext h0 h1, h2])
    | isFalse h0, _, _ =>
      isFalse (by intro h; injection h with hpq _; exact h0 (by rw [hpq]))
    | _, isFalse h1, _ =>
      isFalse (by intro h; injection h with hpq _; exact h1 (by rw [hpq]))
    | _, _, isFalse h2 =>
      isFalse (by intro h; injection h with _ hps; exact h2 hps)

end

instance : DecidableEq Json := jdecEq

/-- Association-list lookup for an arbitrary decidable key type (the model
of a Python dict keyed by serialized cluster values). -/
def alookupBy {κ α : Type} [DecidableEq κ] : List (κ × α) → κ → Option α
  | [], _ => none
  | p :: ps, k => if p.1 = k then some p.2 else alookupBy ps k

/-- One `(file, label, value)` triple per cluster entry, in the iteration
order of `compare_clusters` (files outer, labels inner). -/
def tripleList (data : List (String × List (String × Json))) :
    List (String × String × Json) :=
  data.flatMap (fun fs => fs.2.map (fun kv => (fs.1, kv.1, kv.2)))

/-- `cluster_map.setdefault(value_str, []).append((f, key))`
(diff_operations.py line 28).  The dict is keyed by
`json.dumps(value, sort_keys=True)`; serialization is injective on
key-sorted values, so the model keys the map by `canon value` directly. -/
def insertLoc (c : Json) (loc : String × String) :
    List (Json × List (String × String)) → List (Json × List (String × String))
  | [] => [(c, [loc])]
  | e :: rest =>
    if e.1 = c then (e.1, e.2 ++ [loc]) :: rest
    else e :: insertLoc c loc rest

/-- The first loop of compare_clusters (diff_operations.py lines 25–28). -/
def buildClusterMap (ts : List (String × String × Json)) :
    List (Json × List (String × String)) :=
  ts.foldl (fun m t => insertLoc (canon t.2.2) (t.1, t.2.1) m) []

/-- Python dict assignment `m[k] = v`: overwrite in place or append. -/
def innerUpsert (k : String) (v : Json) : List (String × Json) → List (String × Json)
  | [] => [(k, v)]
  | e :: rest => if e.1 = k then (k, v) :: rest else e :: innerUpsert k v rest

/-- `output.setdefault(f, {})[key] = json.loads(value_str)`
(diff_operations.py line 35). -/
def outInsert (f k : String) (v : Json) :
    List (String × List (String × Json)) → List (String × List (String × Json))
  | [] => [(f, [(k, v)])]
  | e :: rest =>
    if e.1 = f then (e.1, innerUpsert k v e.2) :: rest
    else e :: outInsert f k v rest

/-- The second loop of compare_clusters (diff_operations.py lines 31–35):
keep only map entries with a single location.  The recorded value is the
canonical form (`json.loads(value_str)` re-reads the key-sorted dump). -/
def outStep (out : List (String × List (String × Json)))
    (entry : Json × List (String × String)) : List (String × List (String × Json)) :=
  match entry.2 with
  | [loc] => outInsert loc.1 loc.2 entry.1 out
  | _ => out

/-- `DiffOperations.compare_clusters` (diff_operations.py lines 10–37),
acting on the already-loaded snapshots (file name → label → value; the
`data` dict has one entry per distinct input file). -/
def compare_clusters (data : List (String × List (String × Json))) :
    List (String × List (String × Json)) :=
  (buildClusterMap (tripleList data)).foldl outStep []

/-- Presence lookup in the nested diff output. -/
def lookup2 (out : List (String × List (String × Json))) (f k : String) : Option Json :=
  match alookup out f with
  | some m => alookup m k
  | none => none

/-- Locations of all triples whose canonical value is `c`, in scan order. -/
def locsOf (ts : List (String × String × Json)) (c : Json) : List (String × String) :=
  (ts.filter (fun t => decide (canon t.2.2 = c))).map (fun t => (t.1, t.2.1))

theorem alookupBy_insertLoc (c : Json) (loc : String × String) :
    ∀ (m : List (Json × List (String × String))) (c' : Json),
      alookupBy (insertLoc c loc m) c' =
        if c' = c then some ((alookupBy m c).getD [] ++ [loc])
        else alookupBy m c' := by
  intro m
  induction m with
  | nil =>
    intro c'
    by_cases h : c' = c
    · subst h; simp [insertLoc, alookupBy]
    · have h' : ¬(c = c') := fun hh => h hh.symm
      simp [insertLoc, alookupBy, h, h']
  | cons e rest ih =>
    intro c'
    by_cases he : e.1 = c
    · simp only [insertLoc, if_pos he]
      by_cases h : c' = c
      · subst h
        simp [alookupBy, he]
      · have he' : ¬(e.1 = c') := by
          intro hh
          exact h (hh ▸ he.symm ▸ rfl)
        simp only [alookupBy, if_neg he', if_neg h]
    · have hef : e.1 = c ↔ False := iff_false_intro he
      by_cases h : c' = c
      · subst h
        have he2 : ¬(e.1 = c') := he
        simp only [insertLoc, if_neg he, alookupBy, if_neg he2]
        rw [ih c']
        simp only [if_pos rfl]
      · simp only [insertLoc, if_neg he, alookupBy]
        by_cases hec : e.1 = c'
        · simp [hec]
          rw [if_neg h]
        · simp only [if_neg hec]
          rw [ih c', if_neg h]

theorem insertLoc_keys (c : Json) (loc : String × String) :
    ∀ m : List (Json × List (String × String)),
      (insertLoc c loc m).map Prod.fst =
        if c ∈ m.map Prod.fst then m.map Prod.fst else m.map Prod.fst ++ [c] := by
  intro m
  induction m with
  | nil => simp [insertLoc]
  | cons e rest ih =>
    by_cases he : e.1 = c
    · simp [insertLoc, he]
    · have hne : ¬(c = e.1) := fun hh => he hh.symm
      simp only [insertLoc, if_neg he, List.map_cons, List.mem_cons]
      rw [ih]
      by_cases hc : c ∈ rest.map Prod.fst
      · simp [hc, hne]
      · simp [hc, hne]

theorem insertLoc_keys_nodup (c : Json) (loc : String × String)
    {m : List (Json × List (String × String))}
    (h : (m.map Prod.fst).Nodup) : ((insertLoc c loc m).map Prod.fst).Nodup := by
  rw [insertLoc_keys]
  by_cases hc : c ∈ m.map Prod.fst
  · simpa [hc] using h
  · simp only [if_neg hc]
    simp [List.nodup_append, h, hc]

theorem buildClusterMap_nodup (ts : List (String × String × Json)) :
    ((buildClusterMap ts).map Prod.fst).Nodup := by
  have hgen : ∀ (l : List (String × String × Json))
      (m : List (Json × List (String × String))),
      (m.map Prod.fst).Nodup →
      (((l.foldl (fun m t => insertLoc (canon t.2.2) (t.1, t.2.1) m) m)).map
        Prod.fst).Nodup := by
    intro l
    induction l with
    | nil => intro m hm; simpa using hm
    | cons t l ih =>
      intro m hm
      rw [List.foldl_cons]
      exact ih _ (insertLoc_keys_nodup _ _ hm)
  exact hgen ts [] (by simp)

theorem alookupBy_of_mem_nodup {κ α : Type} [DecidableEq κ] :
    ∀ {l : List (κ × α)} {k : κ} {a : α},
      (l.map Prod.fst).Nodup → (k, a) ∈ l → alookupBy l k = some a := by
  intro l
  induction l with
  | nil => intro k a _ hm; cases hm
  | cons e rest ih =>
    intro k a hnd hm
    rw [List.map_cons, List.nodup_cons] at hnd
    rcases List.mem_cons.mp hm with heq | hmem
    · rw [← heq]
      simp [alookupBy]
    · have hk : k ∈ rest.map Prod.fst :=
        List.mem_map_of_mem Prod.fst hmem
      have hne : ¬(e.1 = k) := fun hh => hnd.1 (hh ▸ hk)
      simp only [alookupBy, if_neg hne]
      exact ih hnd.2 hmem

theorem mem_of_alookupBy {κ α : Type} [DecidableEq κ] :
    ∀ {l : List (κ × α)} {k : κ} {a : α},
      alookupBy l k = some a → (k, a) ∈ l := by
  intro l
  induction l with
  | nil => intro k a h; cases h
  | cons e rest ih =>
    intro k a h
    by_cases he : e.1 = k
    · rw [alookupBy, if_pos he] at h
      have : e = (k, a) := by
        obtain ⟨e1, e2⟩ := e
        obtain rfl := he
        simpa using h
      rw [← this]
      exact List.mem_cons_self e rest
    · rw [alookupBy, if_neg he] at h
      exact List.mem_cons_of_mem e (ih h)

theorem buildClusterMap_lookup (ts : List (String × String × Json)) (c : Json) :
    alookupBy (buildClusterMap ts) c =
      if locsOf ts c = [] then none else some (locsOf ts c) := by
  have hgen : ∀ (l : List (String × String × Json))
      (m : List (Json × List (String × String))),
      alookupBy (l.foldl (fun m t => insertLoc (canon t.2.2) (t.1, t.2.1) m) m) c =
        if locsOf l c = [] then alookupBy m c
        else some ((alookupBy m c).getD [] ++ locsOf l c) := by
    intro l
    induction l with
    | nil => intro m; simp [locsOf]
    | cons t l ih =>
      intro m
      rw [List.foldl_cons, ih]
      by_cases hc : canon t.2.2 = c
      · have hcs : c = canon t.2.2 := hc.symm
        have hlocs : locsOf (t :: l) c = (t.1, t.2.1) :: locsOf l c := by
          simp [locsOf, List.filter_cons, hc]
        rw [hlocs]
        simp only [alookupBy_insertLoc, if_pos hcs]
        rw [if_neg (List.cons_ne_nil _ _)]
        by_cases hl : locsOf l c = []
        · rw [if_pos hl, hl, hc]
        · rw [if_neg hl]
          simp only [List.append_assoc, List.singleton_append, Option.getD_some]
          rw [hc]
      · have hlocs : locsOf (t :: l) c = locsOf l c := by
          simp [locsOf, List.filter_cons, hc]
        rw [hlocs]
        have hcc : ¬(c = canon t.2.2) := fun hh => hc hh.symm
        simp only [alookupBy_insertLoc, if_neg hcc]
  have := hgen ts []
  rw [buildClusterMap, this]
  by_cases hl : locsOf ts c = []
  · simp [hl, alookupBy]
  · simp [hl, alookupBy]

theorem alookup_innerUpsert (k : String) (v : Json) :
    ∀ (m : List (String × Json)) (k' : String),
      alookup (innerUpsert k v m) k' = if k' = k then some v else alookup m k' := by
  intro m
  induction m with
  | nil =>
    intro k'
    by_cases h : k' = k
    · subst h; simp [innerUpsert, alookup]
    · have h' : ¬(k = k') := fun hh => h hh.symm
      simp [innerUpsert, alookup, h, h']
  | cons e rest ih =>
    intro k'
    by_cases he : e.1 = k
    · simp only [innerUpsert, if_pos he]
      by_cases h : k' = k
      · subst h; simp [alookup]
      · have h' : ¬(k = k') := fun hh => h hh.symm
        have he' : ¬(e.1 = k') := fun hh => h' (he ▸ hh)
        simp [alookup, h', he', h]
    · simp only [innerUpsert, if_neg he, alookup]
      by_cases hek : e.1 = k'
      · have h : ¬(k' = k) := fun hh => he (hek.symm ▸ hh ▸ rfl)
        simp [hek, h]
      · simp only [if_neg hek]
        exact ih k'

theorem lookup2_outInsert (f k : String) (v : Json) :
    ∀ (out : List (String × List (String × Json))) (f' k' : String),
      lookup2 (outInsert f k v out) f' k' =
        if f' = f ∧ k' = k then some v else lookup2 out f' k' := by
  intro out
  induction out with
  | nil =>
    intro f' k'
    by_cases hf : f' = f
    · subst hf
      simp only [outInsert, lookup2, alookup, if_pos rfl]
      by_cases hk : k' = k
      · subst hk; simp [alookup]
      · have hk' : ¬(k = k') := fun hh => hk hh.symm
        simp [hk, hk', alookup]
    · have hf' : ¬(f = f') := fun hh => hf hh.symm
      simp [outInsert, lookup2, alookup, hf', hf]
  | cons e rest ih =>
    intro f' k'
    by_cases he : e.1 = f
    · simp only [outInsert, if_pos he]
      by_cases hf : f' = f
      · have hef : e.1 = f' := by rw [he, hf]
        simp only [lookup2, alookup, if_pos hef]
        rw [alookup_innerUpsert]
        by_cases hk : k' = k
        · simp [hk, hf]
        · simp [hk, hf]
      · have hef : ¬(e.1 = f') := fun hh => hf (hh ▸ he ▸ rfl)
        have hcond : ¬(f' = f ∧ k' = k) := fun hh => hf hh.1
        simp [lookup2, alookup, hef, hcond]
    · simp only [outInsert, if_neg he]
      by_cases hef : e.1 = f'
      · have hf : ¬(f' = f) := fun hh => he (hef.symm ▸ hh ▸ rfl)
        have hcond : ¬(f' = f ∧ k' = k) := fun hh => hf hh.1
        simp [lookup2, alookup, hef, hcond]
      · have hl : lookup2 (e :: outInsert f k v rest) f' k' =
            lookup2 (outInsert f k v rest) f' k' := by
          simp [lookup2, alookup, hef]
        have hr : lookup2 (e :: rest) f' k' = lookup2 rest f' k' := by
          simp [lookup2, alookup, hef]
        rw [hl, hr]
        exact ih f' k'

theorem lookup2_foldl_outStep :
    ∀ (entries : List (Json × List (String × String)))
      (out0 : List (String × List (String × Json))) (f k : String),
      (lookup2 (entries.foldl outStep out0) f k ≠ none) ↔
        (lookup2 out0 f k ≠ none ∨ ∃ c, (c, [(f, k)]) ∈ entries) := by
  intro entries
  induction entries with
  | nil => intro out0 f k; simp
  | cons e rest ih =>
    intro out0 f k
    rw [List.foldl_cons, ih]
    have hstep : (lookup2 (outStep out0 e) f k ≠ none) ↔
        (lookup2 out0 f k ≠ none ∨ e.2 = [(f, k)]) := by
      obtain ⟨c0, ls⟩ := e
      cases ls with
      | nil => simp [outStep]
      | cons loc ls' =>
        cases ls' with
        | nil =>
          simp only [outStep]
          rw [lookup2_outInsert]
          by_cases hfk : f = loc.1 ∧ k = loc.2
          · obtain ⟨hf, hk⟩ := hfk
            have hloc : loc = (f, k) := by
              obtain ⟨l1, l2⟩ := loc
              simp only at hf hk
              rw [hf, hk]
            simp [hloc]
          · have hloc : ¬([loc] = [(f, k)]) := by
              intro hh
              injection hh with h1 _
              obtain ⟨l1, l2⟩ := loc
              injection h1 with ha hb
              exact hfk ⟨ha.symm, hb.symm⟩
            simp [hfk, hloc]
        | cons loc2 ls'' => simp [outStep]
    rw [hstep]
    constructor
    · rintro ((h | h) | h)
      · exact Or.inl h
      · exact Or.inr ⟨e.1, by simp [← h]⟩
      · obtain ⟨c, hc⟩ := h
        exact Or.inr ⟨c, List.mem_cons_of_mem e hc⟩
    · rintro (h | ⟨c, hc⟩)
      · exact Or.inl (Or.inl h)
      · rcases List.mem_cons.mp hc with heq | hmem
        · exact Or.inl (Or.inr (by rw [← heq]))
        · exact Or.inr ⟨c, hmem⟩

theorem mem_tripleList {data : List (String × List (String × Json))}
    {f k : String} {v : Json} :
    (f, k, v) ∈ tripleList data ↔ ∃ snap, (f, snap) ∈ data ∧ (k, v) ∈ snap := by
  unfold tripleList
  rw [List.mem_flatMap]
  constructor
  · rintro ⟨fs, hfs, hmem⟩
    rw [List.mem_map] at hmem
    obtain ⟨kv, hkv, heq⟩ := hmem
    injection heq with h1 h2
    injection h2 with h2 h3
    refine ⟨fs.2, ?_, ?_⟩
    · rw [← h1]
      exact hfs
    · rw [← h2, ← h3]
      exact hkv
  · rintro ⟨snap, hsnap, hkv⟩
    refine ⟨(f, snap), hsnap, ?_⟩
    rw [List.mem_map]
    exact ⟨(k, v), hkv, rfl⟩

theorem assoc_value_eq {α : Type} {l : List (String × α)} {k : String} {a b : α}
    (hnd : (l.map Prod.fst).Nodup) (ha : (k, a) ∈ l) (hb : (k, b) ∈ l) : a = b := by
  have h1 := alookupBy_of_mem_nodup hnd ha
  have h2 := alookupBy_of_mem_nodup hnd hb
  rw [h1] at h2
  injection h2

theorem tripleList_unique {data : List (String × List (String × Json))}
    (hfiles : (data.map Prod.fst).Nodup)
    (hlabels : ∀ fs ∈ data, (fs.2.map Prod.fst).Nodup)
    {f k : String} {v w : Json}
    (h1 : (f, k, v) ∈ tripleList data) (h2 : (f, k, w) ∈ tripleList data) : v = w := by
  obtain ⟨snap, hsnap, hkv⟩ := mem_tripleList.mp h1
  obtain ⟨snap', hsnap', hkw⟩ := mem_tripleList.mp h2
  have hs : snap = snap' := assoc_value_eq hfiles hsnap hsnap'
  subst hs
  exact assoc_value_eq (hlabels (f, snap) hsnap) hkv hkw

/-- C2 (amended): a cluster of snapshot Si appears in the diff output under
Si exactly when its canonical form — deep value equality after recursively
sorting object keys, but SENSITIVE to the order of the member list — occurs
exactly once among all (snapshot, label) entries of all snapshots (so a
canonical-equal cluster under another label of the same snapshot also
suppresses it, not only one in a different snapshot). -/
theorem compare_clusters_unique_iff (data : List (String × List (String × Json)))
    (hfiles : (data.map Prod.fst).Nodup)
    (hlabels : ∀ fs ∈ data, (fs.2.map Prod.fst).Nodup)
    (f k : String) (snap : List (String × Json)) (v : Json)
    (hf : (f, snap) ∈ data) (hk : (k, v) ∈ snap) :
    lookup2 (compare_clusters data) f k ≠ none ↔
      (tripleList data).countP (fun t => decide (canon t.2.2 = canon v)) = 1 := by
  have hmem : (f, k, v) ∈ tripleList data := mem_tripleList.mpr ⟨snap, hf, hk⟩
  unfold compare_clusters
  rw [lookup2_foldl_outStep]
  have hnone : lookup2 [] f k = none := rfl
  rw [List.countP_eq_length_filter]
  constructor
  · rintro (habs | ⟨c, hc⟩)
    · exact absurd hnone habs
    · have hlk := alookupBy_of_mem_nodup (buildClusterMap_nodup _) hc
      rw [buildClusterMap_lookup] at hlk
      by_cases hl : locsOf (tripleList data) c = []
      · rw [if_pos hl] at hlk
        cases hlk
      · rw [if_neg hl] at hlk
        have hlocs : locsOf (tripleList data) c = [(f, k)] := by
          injection hlk
        unfold locsOf at hlocs
        cases hF : (tripleList data).filter (fun t => decide (canon t.2.2 = c)) with
        | nil => rw [hF] at hlocs; cases hlocs
        | cons t0 F' =>
          rw [hF] at hlocs
          rw [List.map_cons] at hlocs
          injection hlocs with hloc0 hrest
          have hF' : F' = [] := by
            cases F' with
            | nil => rfl
            | cons a b => cases hrest
          subst hF'
          have ht0 : t0 ∈ (tripleList data).filter (fun t => decide (canon t.2.2 = c)) := by
            rw [hF]
            exact List.mem_cons_self t0 []
          rw [List.mem_filter] at ht0
          obtain ⟨ht0mem, ht0c⟩ := ht0
          have ht0c' : canon t0.2.2 = c := of_decide_eq_true ht0c
          obtain ⟨tf, tk, tv⟩ := t0
          simp only at hloc0
          injection hloc0 with hf0 hk0
          subst hf0
          subst hk0
          have hveq : tv = v := tripleList_unique hfiles hlabels ht0mem hmem
          subst hveq
          simp only at ht0c'
          rw [ht0c', hF]
          rfl
  · intro hcount
    have hFone := List.length_eq_one.mp hcount
    obtain ⟨t0, hF⟩ := hFone
    have hvmem : (f, k, v) ∈ (tripleList data).filter
        (fun t => decide (canon t.2.2 = canon v)) := by
      rw [List.mem_filter]
      exact ⟨hmem, by simp⟩
    rw [hF] at hvmem
    have ht0 : t0 = (f, k, v) := by
      rcases List.mem_singleton.mp hvmem with h
      exact h.symm
    subst ht0
    have hlocs : locsOf (tripleList data) (canon v) = [(f, k)] := by
      unfold locsOf
      rw [hF]
      rfl
    right
    refine ⟨canon v, ?_⟩
    apply mem_of_alookupBy
    rw [buildClusterMap_lookup, hlocs]
    simp

/-- Snapshots for the diff counterexample: the same two-member cluster with
its member list in opposite orders in the two snapshot files. -/
def dataC2 : List (String × List (String × Json)) :=
  [("f1", [("c1", Json.arr [Json.str "a", Json.str "b"])]),
   ("f2", [("d1", Json.arr [Json.str "b", Json.str "a"])])]

/-- C2 is false as stated: the clusters of f1 and f2 hold the same member
set (their member lists are permutations of each other, so they are
canonical-equal under the claimed order-independent equality), yet BOTH
appear in the diff output — `json.dumps(value, sort_keys=True)` sorts
dictionary keys but leaves list order alone, so the two serialize
differently. -/
theorem diff_exclusivity_claim_false :
    ([Json.str "a", Json.str "b"] : List Json).Perm [Json.str "b", Json.str "a"] ∧
    lookup2 (compare_clusters dataC2) "f1" "c1" ≠ none ∧
    lookup2 (compare_clusters dataC2) "f2" "d1" ≠ none :=
  ⟨by decide, by decide, by decide⟩

/-- Witness for the amended C2 at a concrete pair of snapshots. -/
theorem compare_clusters_unique_iff_witness :
    lookup2 (compare_clusters dataC2) "f1" "c1" ≠ none ↔
      (tripleList dataC2).countP
        (fun t => decide (canon t.2.2 =
          canon (Json.arr [Json.str "a", Json.str "b"]))) = 1 :=
  compare_clusters_unique_iff dataC2 (by decide) (by decide) "f1" "c1"
    [("c1", Json.arr [Json.str "a", Json.str "b"])]
    (Json.arr [Json.str "a", Json.str "b"]) (by decide) (by decide)
